import Mathlib

/-!
# Verification of the genealogy-map pipeline in src/geo.py

Shallow embedding of the pipeline (decode → parse → geocode → aggregate)
and theorems checking the natural-language specification against the code.

Modelling conventions: Python strings are `String` / `List Char`; byte
sequences are `List Nat` with values below 256; a Python value that may be
`None` is an `Option`; a raised exception is an explicit error constructor.
Latitude and longitude are opaque payload to the pipeline (produced by the
external geocoder and only carried along, never computed with), so they are
modelled as `Int` rather than floating point.  The external collaborators
(geocoder) are oracle parameters; parts of the python-gedcom library that
the code calls but that are not in the repository are modelled from the
specification and flagged as such in their doc comments.
-/

namespace Geo

/-! ## Year Extractor: `get_year_from_date` (src/geo.py lines 20-24)

    def get_year_from_date(date_str):
        if not date_str:
            return None
        match = re.search(r'\d{4}', date_str)
        return int(match.group(0)) if match else None

`re.search` scans left to right and stops at the first position where the
pattern `\d{4}` (four consecutive digit characters) matches.  Digits are
modelled as ASCII `0`-`9` (`Char.isDigit`). -/

/-- The regex `\d{4}` matches at the head of the character list: the list
has at least four characters and the first four are all digits. -/
def fourHere (cs : List Char) : Bool :=
  ((cs.take 4).length == 4) && (cs.take 4).all Char.isDigit

/-- The left-to-right scan of `re.search(r'\d{4}', _)`: return the first
four-digit window, or `none` when no position matches. -/
def searchFour : List Char → Option (List Char)
  | [] => none
  | c :: cs => if fourHere (c :: cs) then some ((c :: cs).take 4) else searchFour cs

/-- Numeric value of a digit character. -/
def digitVal (c : Char) : Nat := c.toNat - 48

/-- `int(_)` on a string of digit characters. -/
def digitsToNat (cs : List Char) : Nat := cs.foldl (fun a c => a * 10 + digitVal c) 0

/-- Embedding of `get_year_from_date` (src/geo.py lines 20-24): `None` on a
falsy (empty) string, otherwise the integer value of the first four-digit
window found by `re.search`, or `None` when there is none. -/
def get_year_from_date (s : String) : Option Nat :=
  if s = "" then none
  else (searchFour s.data).map digitsToNat

/-- Specification-side predicate: a run of four consecutive digit
characters occurs at position `i` of `cs`. -/
def fourDigitRunAt (cs : List Char) (i : Nat) : Prop :=
  ∃ a b c d rest, cs.drop i = a :: b :: c :: d :: rest ∧
    a.isDigit ∧ b.isDigit ∧ c.isDigit ∧ d.isDigit

lemma fourHere_iff (cs : List Char) : fourHere cs = true ↔ fourDigitRunAt cs 0 := by
  match cs with
  | [] => simp [fourHere, fourDigitRunAt]
  | [a] => simp [fourHere, fourDigitRunAt]
  | [a, b] => simp [fourHere, fourDigitRunAt]
  | [a, b, c] => simp [fourHere, fourDigitRunAt]
  | a :: b :: c :: d :: rest =>
      simp only [fourHere, fourDigitRunAt, List.take, List.all_cons, List.all_nil,
        List.drop_zero, List.length_cons, List.length_nil]
      constructor
      · rintro h
        simp only [Bool.and_eq_true, beq_iff_eq] at h
        exact ⟨a, b, c, d, rest, rfl, h.2.1, h.2.2.1, h.2.2.2.1, h.2.2.2.2.1⟩
      · rintro ⟨a', b', c', d', rest', heq, ha, hb, hc, hd⟩
        cases heq
        simp [ha, hb, hc, hd]

lemma fourDigitRunAt_cons_succ (c : Char) (cs : List Char) (i : Nat) :
    fourDigitRunAt (c :: cs) (i + 1) ↔ fourDigitRunAt cs i := by
  simp [fourDigitRunAt, List.drop_succ_cons]

lemma fourDigitRunAt_nil (i : Nat) : ¬ fourDigitRunAt [] i := by
  rintro ⟨a, b, c, d, rest, heq, -⟩
  simp at heq

lemma searchFour_eq_some_iff (cs : List Char) (ds : List Char) :
    searchFour cs = some ds ↔
      ∃ i, fourDigitRunAt cs i ∧ (∀ j, j < i → ¬ fourDigitRunAt cs j) ∧
        ds = (cs.drop i).take 4 := by
  induction cs with
  | nil =>
      constructor
      · intro h; simp [searchFour] at h
      · rintro ⟨i, hi, -, -⟩; exact absurd hi (fourDigitRunAt_nil i)
  | cons c cs ih =>
      by_cases h : fourHere (c :: cs) = true
      · have h0 : fourDigitRunAt (c :: cs) 0 := (fourHere_iff _).mp h
        simp only [searchFour, if_pos h]
        constructor
        · rintro heq
          refine ⟨0, h0, by omega, ?_⟩
          simpa using heq.symm
        · rintro ⟨i, hi, hmin, hds⟩
          have hi0 : i = 0 := by
            by_contra hne
            exact hmin 0 (Nat.pos_of_ne_zero hne) h0
          subst hi0
          simpa using hds.symm
      · have h0 : ¬ fourDigitRunAt (c :: cs) 0 := fun hr => h ((fourHere_iff _).mpr hr)
        simp only [searchFour, if_neg h]
        rw [ih]
        constructor
        · rintro ⟨i, hi, hmin, hds⟩
          refine ⟨i + 1, (fourDigitRunAt_cons_succ c cs i).mpr hi, ?_, ?_⟩
          · intro j hj
            match j with
            | 0 => exact h0
            | j + 1 =>
                rw [fourDigitRunAt_cons_succ]
                exact hmin j (by omega)
          · simpa [List.drop_succ_cons] using hds
        · rintro ⟨i, hi, hmin, hds⟩
          match i with
          | 0 => exact absurd hi h0
          | i + 1 =>
              refine ⟨i, (fourDigitRunAt_cons_succ c cs i).mp hi, ?_, ?_⟩
              · intro j hj
                have := hmin (j + 1) (by omega)
                rw [fourDigitRunAt_cons_succ] at this
                exact this
              · simpa [List.drop_succ_cons] using hds

lemma searchFour_eq_none_iff (cs : List Char) :
    searchFour cs = none ↔ ∀ i, ¬ fourDigitRunAt cs i := by
  induction cs with
  | nil =>
      exact ⟨fun _ i => fourDigitRunAt_nil i, fun _ => rfl⟩
  | cons c cs ih =>
      by_cases h : fourHere (c :: cs) = true
      · simp only [searchFour, if_pos h]
        constructor
        · intro heq; cases heq
        · intro hall
          exact absurd ((fourHere_iff _).mp h) (hall 0)
      · have h0 : ¬ fourDigitRunAt (c :: cs) 0 := fun hr => h ((fourHere_iff _).mpr hr)
        simp only [searchFour, if_neg h]
        rw [ih]
        constructor
        · intro hall i
          match i with
          | 0 => exact h0
          | i + 1 => rw [fourDigitRunAt_cons_succ]; exact hall i
        · intro hall i
          have := hall (i + 1)
          rw [fourDigitRunAt_cons_succ] at this
          exact this

lemma get_year_from_date_eq (s : String) :
    get_year_from_date s = (searchFour s.data).map digitsToNat := by
  by_cases hs : s = ""
  · subst hs; rfl
  · simp [get_year_from_date, hs]

/-- Claim C4: for every input string, `get_year_from_date` returns the first
(leftmost) run of four consecutive digits found anywhere in the string as an
integer, and `none` when no such run exists; in particular it maps
"ABT 1873" to 1873, "12 MAY 1873" to 1873, the empty string to `none`, and
"no digits" to `none`. -/
theorem C4_year_extraction :
    (∀ (s : String) (n : Nat),
        get_year_from_date s = some n ↔
          ∃ i, fourDigitRunAt s.data i ∧ (∀ j, j < i → ¬ fourDigitRunAt s.data j) ∧
            n = digitsToNat ((s.data.drop i).take 4))
    ∧ (∀ s : String, get_year_from_date s = none ↔ ∀ i, ¬ fourDigitRunAt s.data i)
    ∧ get_year_from_date "ABT 1873" = some 1873
    ∧ get_year_from_date "12 MAY 1873" = some 1873
    ∧ get_year_from_date "" = none
    ∧ get_year_from_date "no digits" = none := by
  refine ⟨?_, ?_, by decide, by decide, by decide, by decide⟩
  · intro s n
    rw [get_year_from_date_eq, Option.map_eq_some']
    constructor
    · rintro ⟨ds, hds, rfl⟩
      obtain ⟨i, hi, hmin, rfl⟩ := (searchFour_eq_some_iff _ _).mp hds
      exact ⟨i, hi, hmin, rfl⟩
    · rintro ⟨i, hi, hmin, rfl⟩
      exact ⟨(s.data.drop i).take 4, (searchFour_eq_some_iff _ _).mpr ⟨i, hi, hmin, rfl⟩, rfl⟩
  · intro s
    rw [get_year_from_date_eq, Option.map_eq_none']
    exact searchFour_eq_none_iff _

/-- Witness for C4 at concrete inputs. -/
theorem C4_year_extraction_witness :
    get_year_from_date "ABT 1873" = some 1873 ∧ get_year_from_date "" = none :=
  ⟨C4_year_extraction.2.2.1, C4_year_extraction.2.2.2.2.1⟩

/-! ## Text Normalizer (src/geo.py lines 29-36)

    try:
        decoded_text = file_content.decode('utf-8-sig')
    except UnicodeDecodeError:
        try:
            decoded_text = file_content.decode('latin-1')
        except Exception:
            decoded_text = file_content.decode('utf-8', errors='ignore')

Bytes are `Nat` values below 256.  A fallible decode is an `Option`;
the chain as a whole is embedded with an `Except` result type so that an
uncaught exception would be visible as `.error`. -/

/-- A UTF-8 continuation byte `10xxxxxx`. -/
def isCont (b : Nat) : Bool := 0x80 ≤ b && b < 0xC0

/-- Payload bits of a continuation byte. -/
def contVal (b : Nat) : Nat := b - 0x80

/-- Code points CPython accepts when decoding: Unicode scalar values
(below 0x110000 and not a UTF-16 surrogate). -/
def validScalar (n : Nat) : Bool := n < 0xD800 || (0xE000 ≤ n && n < 0x110000)

/-- Decode one code point of strict UTF-8 (as CPython strict mode does:
overlong encodings, surrogates, out-of-range values and truncated
sequences are all rejected), returning the character and the remaining
bytes. -/
def utf8DecodeOne (b : Nat) (rest : List Nat) : Option (Char × List Nat) :=
  if b < 0x80 then
    some (Char.ofNat b, rest)
  else if b < 0xC2 then
    none
  else if b < 0xE0 then
    match rest with
    | b1 :: rest1 =>
        if isCont b1 then some (Char.ofNat ((b - 0xC0) * 64 + contVal b1), rest1)
        else none
    | [] => none
  else if b < 0xF0 then
    match rest with
    | b1 :: b2 :: rest2 =>
        if isCont b1 && isCont b2 then
          let n := (b - 0xE0) * 4096 + contVal b1 * 64 + contVal b2
          if 0x800 ≤ n && validScalar n then some (Char.ofNat n, rest2) else none
        else none
    | _ => none
  else if b < 0xF5 then
    match rest with
    | b1 :: b2 :: b3 :: rest3 =>
        if isCont b1 && isCont b2 && isCont b3 then
          let n := (b - 0xF0) * 0x40000 + contVal b1 * 4096 + contVal b2 * 64 + contVal b3
          if 0x10000 ≤ n && n < 0x110000 then some (Char.ofNat n, rest3) else none
        else none
    | _ => none
  else none

/-- Strict UTF-8 decoding of a byte list, with fuel (one unit per decoded
code point; `bs.length` units always suffice since each step consumes at
least one byte, so the fuel-exhaustion branch is unreachable). -/
def utf8StrictAux : Nat → List Nat → Option (List Char)
  | _, [] => some []
  | 0, _ :: _ => none
  | fuel + 1, b :: rest =>
      match utf8DecodeOne b rest with
      | some (c, rest1) => (utf8StrictAux fuel rest1).map (fun cs => c :: cs)
      | none => none

/-- `bytes.decode('utf-8')` in strict mode. -/
def decodeUtf8 (bs : List Nat) : Option (List Char) := utf8StrictAux bs.length bs

/-- `bytes.decode('utf-8-sig')`: strip one leading UTF-8 byte-order mark
(EF BB BF) when present, then strict UTF-8. -/
def decodeUtf8Sig (bs : List Nat) : Option (List Char) :=
  match bs with
  | 0xEF :: 0xBB :: 0xBF :: rest => decodeUtf8 rest
  | _ => decodeUtf8 bs

/-- `bytes.decode('latin-1')`: every byte value maps directly to the code
point with the same value, so this decoding is total on bytes (the
reduction modulo 256 is the identity on actual byte values). -/
def decodeLatin1 (bs : List Nat) : List Char := bs.map (fun b => Char.ofNat (b % 256))

/-- The latin-1 tier as the fallible decode it is in the source chain; it
always succeeds. -/
def decodeLatin1Opt (bs : List Nat) : Option (List Char) := some (decodeLatin1 bs)

/-- `bytes.decode('utf-8', errors='ignore')`: strict decoding that skips a
byte whenever no valid sequence starts at it.  Total; unreachable in the
source chain because latin-1 already always succeeds. -/
def utf8IgnoreAux : Nat → List Nat → List Char
  | _, [] => []
  | 0, _ :: _ => []
  | fuel + 1, b :: rest =>
      match utf8DecodeOne b rest with
      | some (c, rest1) => c :: utf8IgnoreAux fuel rest1
      | none => utf8IgnoreAux fuel rest

/-- `bytes.decode('utf-8', errors='ignore')` on a byte list. -/
def decodeUtf8Ignore (bs : List Nat) : List Char := utf8IgnoreAux bs.length bs

/-- Embedding of the decode fallback chain (src/geo.py lines 29-36): try
`utf-8-sig`; on failure try `latin-1`; on failure force-decode `utf-8`
discarding invalid sequences.  The `Except` result makes an uncaught
decode exception visible as `.error`; the chain never produces one. -/
def decode_file_content (bs : List Nat) : Except String (List Char) :=
  match decodeUtf8Sig bs with
  | some cs => Except.ok cs
  | none =>
      match decodeLatin1Opt bs with
      | some cs => Except.ok cs
      | none => Except.ok (decodeUtf8Ignore bs)

/-- The decode chain always succeeds: the latin-1 tier can decode every
byte, so no failure escapes. -/
lemma decode_total (bs : List Nat) : ∃ cs, decode_file_content bs = Except.ok cs := by
  cases h : decodeUtf8Sig bs with
  | some cs => exact ⟨cs, by simp [decode_file_content, h]⟩
  | none => exact ⟨decodeLatin1 bs, by simp [decode_file_content, h, decodeLatin1Opt]⟩

/-- Claim C9: for every input byte sequence the Text Normalizer returns a
decoded string without raising, trying UTF-8 with byte-order-mark stripping
first, then Latin-1 on failure (the third tier, UTF-8 with invalid bytes
discarded, is behind Latin-1 which never fails). -/
theorem C9_normalizer_total :
    (∀ bs : List Nat, ∃ cs, decode_file_content bs = Except.ok cs)
    ∧ (∀ bs cs, decodeUtf8Sig bs = some cs → decode_file_content bs = Except.ok cs)
    ∧ (∀ bs, decodeUtf8Sig bs = none → decode_file_content bs = Except.ok (decodeLatin1 bs)) := by
  refine ⟨?_, ?_, ?_⟩
  · exact decode_total
  · intro bs cs h
    simp [decode_file_content, h]
  · intro bs h
    simp [decode_file_content, h, decodeLatin1Opt]

/-- Witness for C9: the byte 0xFF is not valid UTF-8, so the chain falls
through to Latin-1; a pure-ASCII input decodes at the first tier. -/
theorem C9_normalizer_total_witness :
    decode_file_content [0xFF] = Except.ok (decodeLatin1 [0xFF])
    ∧ decode_file_content [0x41] = Except.ok [⟨0x41, by decide⟩] :=
  ⟨C9_normalizer_total.2.2 [0xFF] (by decide),
   C9_normalizer_total.2.1 [0x41] [⟨0x41, by decide⟩] (by decide)⟩

/-! ## Data model

A parsed row of the dataframe built by `parse_gedcom` (columns Nimi,
Syntymäaika, Vuosi, Paikka), and the same row after `geocode_dataframe`
attached the lat/lon columns and dropped unresolved rows. -/

structure BirthRecord where
  nimi : String
  syntymaika : String
  vuosi : Nat
  paikka : String
deriving DecidableEq

structure GeoRecord where
  nimi : String
  syntymaika : String
  vuosi : Nat
  paikka : String
  lat : Int
  lon : Int
deriving DecidableEq

/-! ## Place Resolver: `geocode_dataframe` (src/geo.py lines 86-123)

The external geocoding collaborator is an oracle parameter
`lookup : String → LookupOutcome`; the rate limiter and the progress
widget are wall-clock / UI effects with no bearing on the data result and
are not modelled.  `df['Paikka'].unique()` keeps the first-appearance
order of the distinct place strings, modelled by `pdUnique`. -/

/-- One call to the rate-limited `geocode(query)`: a location with
coordinates, no result (`None`), or a raised provider exception. -/
inductive LookupOutcome where
  | found (lat lon : Int)
  | notFound
  | failure
deriving DecidableEq

/-- What the loop body stores in `place_coords` for one outcome:
`(location.latitude, location.longitude)` on success, `(None, None)` on a
miss or a caught exception. -/
def outcomeCoords : LookupOutcome → Option (Int × Int)
  | .found a b => some (a, b)
  | .notFound => none
  | .failure => none

/-- `pandas.unique`: distinct values in order of first appearance
(case-sensitive exact equality, no normalization). -/
def pdUniqueAux {α : Type} [DecidableEq α] (seen : List α) : List α → List α
  | [] => []
  | x :: xs => if x ∈ seen then pdUniqueAux seen xs else x :: pdUniqueAux (x :: seen) xs

/-- `df['Paikka'].unique()` on a list of values. -/
def pdUnique {α : Type} [DecidableEq α] (l : List α) : List α := pdUniqueAux [] l

/-- `pat` starts the list `hay`. -/
def listStartsWith : List Char → List Char → Bool
  | [], _ => true
  | _ :: _, [] => false
  | a :: as, b :: bs => a == b && listStartsWith as bs

/-- `pat in hay` for Python strings: `pat` occurs as a contiguous
substring of `hay`. -/
def listHasSub (hay pat : List Char) : Bool :=
  listStartsWith pat hay ||
    match hay with
    | [] => false
    | _ :: t => listHasSub t pat

/-- Python `pat in s` on strings. -/
def strHasSub (s pat : String) : Bool := listHasSub s.data pat.data

/-- ASCII lowercasing of one character (`str.lower()` is Unicode-aware,
but the two search keys "finland" and "suomi" are pure ASCII, so only the
ASCII range matters for the membership tests below). -/
def charLower (c : Char) : Char :=
  if c.toNat ≥ 65 ∧ c.toNat ≤ 90 then Char.ofNat (c.toNat + 32) else c

/-- `place.lower()` restricted to the ASCII range. -/
def strLower (s : String) : String := ⟨s.data.map charLower⟩

/-- The country-qualification heuristic (src/geo.py lines 104-106): when
neither "finland" nor "suomi" occurs in the lowercased place, append
", Finland" to the query. -/
def queryFor (place : String) : String :=
  if !(strHasSub (strLower place) "finland") && !(strHasSub (strLower place) "suomi") then
    place ++ ", Finland"
  else
    place

/-- The geocoding loop (src/geo.py lines 98-115): walk the unique places,
skip a place already in `place_coords`, otherwise invoke the collaborator
once and record the resulting coordinates (absent on miss or exception).
Returns the final `place_coords` dictionary (as an association list in
insertion order) together with the list of queries actually sent to the
collaborator. -/
def geocodeLoop (lookup : String → LookupOutcome) :
    List String → List (String × Option (Int × Int)) →
      List (String × Option (Int × Int)) × List String
  | [], coords => (coords, [])
  | place :: rest, coords =>
      if (coords.lookup place).isSome then
        geocodeLoop lookup rest coords
      else
        let q := queryFor place
        let out := geocodeLoop lookup rest (coords ++ [(place, outcomeCoords (lookup q))])
        (out.1, q :: out.2)

/-- The final `place_coords` dictionary of one run. -/
def place_coords_of (lookup : String → LookupOutcome) (df : List BirthRecord) :
    List (String × Option (Int × Int)) :=
  (geocodeLoop lookup (pdUnique (df.map (·.paikka))) []).1

/-- The queries sent to the geocoding collaborator during one run, in
order (one list element per invocation of `geocode`). -/
def geocode_calls (lookup : String → LookupOutcome) (df : List BirthRecord) : List String :=
  (geocodeLoop lookup (pdUnique (df.map (·.paikka))) []).2

/-- Embedding of `geocode_dataframe` (src/geo.py lines 86-123): build
`place_coords` over the unique places, attach the lat and lon columns by
mapping each row through the dictionary, then `dropna` removes every row
whose coordinates are absent.  (The `.get(x, (None, None))` default can
never fire: every place of the dataframe is among the unique places.) -/
def geocode_dataframe (lookup : String → LookupOutcome) (df : List BirthRecord) :
    List GeoRecord :=
  let coords := place_coords_of lookup df
  df.filterMap fun r =>
    match coords.lookup r.paikka with
    | some (some (a, b)) => some ⟨r.nimi, r.syntymaika, r.vuosi, r.paikka, a, b⟩
    | _ => none

lemma mem_pdUniqueAux {α : Type} [DecidableEq α] (l : List α) :
    ∀ (seen : List α) (a : α), a ∈ pdUniqueAux seen l ↔ (a ∈ l ∧ a ∉ seen) := by
  induction l with
  | nil => simp [pdUniqueAux]
  | cons x xs ih =>
      intro seen a
      by_cases hx : x ∈ seen
      · rw [pdUniqueAux, if_pos hx, ih]
        constructor
        · rintro ⟨h1, h2⟩; exact ⟨List.mem_cons_of_mem _ h1, h2⟩
        · rintro ⟨h1, h2⟩
          rcases List.mem_cons.mp h1 with rfl | h1
          · exact absurd hx h2
          · exact ⟨h1, h2⟩
      · rw [pdUniqueAux, if_neg hx]
        by_cases hax : a = x
        · subst hax
          simp [hx]
        · simp only [List.mem_cons, hax, false_or, ih, List.mem_cons]

lemma mem_pdUnique {α : Type} [DecidableEq α] (l : List α) (a : α) :
    a ∈ pdUnique l ↔ a ∈ l := by
  rw [pdUnique, mem_pdUniqueAux]
  simp

lemma nodup_pdUniqueAux {α : Type} [DecidableEq α] (l : List α) :
    ∀ seen : List α, (pdUniqueAux seen l).Nodup := by
  induction l with
  | nil => intro seen; simp [pdUniqueAux]
  | cons x xs ih =>
      intro seen
      by_cases hx : x ∈ seen
      · rw [pdUniqueAux, if_pos hx]; exact ih seen
      · rw [pdUniqueAux, if_neg hx]
        refine List.nodup_cons.mpr ⟨?_, ih (x :: seen)⟩
        intro hmem
        have := (mem_pdUniqueAux xs (x :: seen) x).mp hmem
        exact this.2 (List.mem_cons_self x seen)

lemma nodup_pdUnique {α : Type} [DecidableEq α] (l : List α) : (pdUnique l).Nodup :=
  nodup_pdUniqueAux l []

lemma lookup_append_left {α β : Type} [BEq α] (l1 l2 : List (α × β)) (k : α) (v : β)
    (h : l1.lookup k = some v) : (l1 ++ l2).lookup k = some v := by
  induction l1 with
  | nil => simp [List.lookup] at h
  | cons e t ih =>
      obtain ⟨a, b⟩ := e
      rw [List.cons_append, List.lookup_cons] at *
      cases hk : (k == a) with
      | true => rw [hk] at h; exact h
      | false => rw [hk] at h; exact ih h

lemma lookup_append_ne {α β : Type} [BEq α] [LawfulBEq α] (l1 : List (α × β)) (k p : α)
    (c : β) (h : l1.lookup k = none) (hne : k ≠ p) : (l1 ++ [(p, c)]).lookup k = none := by
  induction l1 with
  | nil =>
      simp only [List.nil_append, List.lookup_cons]
      rw [show (k == p) = false from beq_eq_false_iff_ne.mpr hne]
      rfl
  | cons e t ih =>
      obtain ⟨a, b⟩ := e
      rw [List.cons_append, List.lookup_cons] at *
      cases hk : (k == a) with
      | true => rw [hk] at h; simp at h
      | false => rw [hk] at h; exact ih h

lemma lookup_append_self {α β : Type} [BEq α] [LawfulBEq α] (l1 : List (α × β)) (k : α)
    (c : β) (h : l1.lookup k = none) : (l1 ++ [(k, c)]).lookup k = some c := by
  induction l1 with
  | nil =>
      simp only [List.nil_append, List.lookup_cons]
      rw [show (k == k) = true from beq_self_eq_true k]
  | cons e t ih =>
      obtain ⟨a, b⟩ := e
      rw [List.cons_append, List.lookup_cons] at *
      cases hk : (k == a) with
      | true => rw [hk] at h; simp at h
      | false => rw [hk] at h; exact ih h

lemma geocodeLoop_calls_eq (lookup : String → LookupOutcome) :
    ∀ (places : List String) (coords : List (String × Option (Int × Int))),
      places.Nodup → (∀ p ∈ places, coords.lookup p = none) →
      (geocodeLoop lookup places coords).2 = places.map queryFor := by
  intro places
  induction places with
  | nil => intro coords _ _; rfl
  | cons place rest ih =>
      intro coords hnd hfresh
      have hplace : coords.lookup place = none := hfresh place (List.mem_cons_self _ _)
      rw [geocodeLoop, if_neg (by rw [hplace]; simp)]
      have hnd' := List.nodup_cons.mp hnd
      show queryFor place :: (geocodeLoop lookup rest
          (coords ++ [(place, outcomeCoords (lookup (queryFor place)))])).2 =
        queryFor place :: List.map queryFor rest
      exact congrArg (queryFor place :: ·)
        (ih _ hnd'.2 fun p hp =>
          lookup_append_ne coords p place _ (hfresh p (List.mem_cons_of_mem _ hp))
            (fun heq => hnd'.1 (heq ▸ hp)))

lemma geocodeLoop_coords_preserve (lookup : String → LookupOutcome) :
    ∀ (places : List String) (coords : List (String × Option (Int × Int)))
      (k : String) (v : Option (Int × Int)),
      coords.lookup k = some v →
      ((geocodeLoop lookup places coords).1).lookup k = some v := by
  intro places
  induction places with
  | nil => intro coords k v h; exact h
  | cons place rest ih =>
      intro coords k v h
      by_cases hmem : (coords.lookup place).isSome
      · rw [geocodeLoop, if_pos hmem]; exact ih coords k v h
      · rw [geocodeLoop, if_neg hmem]
        exact ih _ k v (lookup_append_left coords _ k v h)

lemma geocodeLoop_coords_mem (lookup : String → LookupOutcome) :
    ∀ (places : List String) (coords : List (String × Option (Int × Int))),
      places.Nodup → (∀ p ∈ places, coords.lookup p = none) →
      ∀ p ∈ places,
        ((geocodeLoop lookup places coords).1).lookup p =
          some (outcomeCoords (lookup (queryFor p))) := by
  intro places
  induction places with
  | nil => intro coords _ _ p hp; cases hp
  | cons place rest ih =>
      intro coords hnd hfresh p hp
      have hplace : coords.lookup place = none := hfresh place (List.mem_cons_self _ _)
      rw [geocodeLoop, if_neg (by rw [hplace]; simp)]
      have hnd' := List.nodup_cons.mp hnd
      rcases List.mem_cons.mp hp with rfl | hp'
      · exact geocodeLoop_coords_preserve lookup rest _ p _
          (lookup_append_self coords p _ hplace)
      · exact ih _ hnd'.2
          (fun q hq => lookup_append_ne coords q place _
            (hfresh q (List.mem_cons_of_mem _ hq)) (fun heq => hnd'.1 (heq ▸ hq)))
          p hp'

lemma place_coords_lookup (lookup : String → LookupOutcome) (df : List BirthRecord)
    (p : String) (hp : p ∈ df.map (·.paikka)) :
    (place_coords_of lookup df).lookup p = some (outcomeCoords (lookup (queryFor p))) := by
  rw [place_coords_of]
  exact geocodeLoop_coords_mem lookup (pdUnique (df.map (·.paikka))) []
    (nodup_pdUnique _) (fun _ _ => rfl) p ((mem_pdUnique _ p).mpr hp)

/-- Claim C7: for every input and every behaviour of the collaborator, one
run of the Place Resolver sends exactly one query per distinct place
string (case-sensitive exact match), in first-appearance order — so K
distinct places cost exactly K lookups, however many records there are. -/
theorem C7_resolver_dedup (lookup : String → LookupOutcome) (df : List BirthRecord) :
    geocode_calls lookup df = (pdUnique (df.map (·.paikka))).map queryFor
    ∧ (geocode_calls lookup df).length = (pdUnique (df.map (·.paikka))).length := by
  have h := geocodeLoop_calls_eq lookup (pdUnique (df.map (·.paikka))) []
    (nodup_pdUnique _) (fun _ _ => rfl)
  exact ⟨h, by rw [geocode_calls, h, List.length_map]⟩

/-- Claim C8: a lookup that errors or misses marks the place coordinates
absent without aborting the batch, and the Resolver returns exactly the
records whose place resolved to coordinates, with lat and lon attached;
the others are excluded. -/
theorem C8_resolver_errors (lookup : String → LookupOutcome) (df : List BirthRecord) :
    (geocode_dataframe lookup df = df.filterMap (fun r =>
        match lookup (queryFor r.paikka) with
        | .found a b => some ⟨r.nimi, r.syntymaika, r.vuosi, r.paikka, a, b⟩
        | .notFound => none
        | .failure => none))
    ∧ (∀ g, g ∈ geocode_dataframe lookup df ↔
          ∃ r ∈ df, ∃ a b, lookup (queryFor r.paikka) = LookupOutcome.found a b ∧
            g = ⟨r.nimi, r.syntymaika, r.vuosi, r.paikka, a, b⟩)
    ∧ (∀ r ∈ df, outcomeCoords (lookup (queryFor r.paikka)) = none →
          (place_coords_of lookup df).lookup r.paikka = some none) := by
  have heq : geocode_dataframe lookup df = df.filterMap (fun r =>
      match lookup (queryFor r.paikka) with
      | .found a b => some ⟨r.nimi, r.syntymaika, r.vuosi, r.paikka, a, b⟩
      | .notFound => none
      | .failure => none) := by
    rw [geocode_dataframe]
    refine List.filterMap_congr fun r hr => ?_
    rw [place_coords_lookup lookup df r.paikka (List.mem_map_of_mem _ hr)]
    cases lookup (queryFor r.paikka) <;> rfl
  refine ⟨heq, ?_, ?_⟩
  · intro g
    rw [heq, List.mem_filterMap]
    constructor
    · rintro ⟨r, hr, hfr⟩
      cases ho : lookup (queryFor r.paikka) with
      | found a b =>
          rw [ho] at hfr
          exact ⟨r, hr, a, b, ho, (Option.some_inj.mp hfr).symm⟩
      | notFound => rw [ho] at hfr; cases hfr
      | failure => rw [ho] at hfr; cases hfr
    · rintro ⟨r, hr, a, b, ho, rfl⟩
      exact ⟨r, hr, by rw [ho]⟩
  · intro r hr hnone
    rw [place_coords_lookup lookup df r.paikka (List.mem_map_of_mem _ hr), hnone]

/-- A collaborator that never finds anything, for the C8 witness. -/
def lookupMiss : String → LookupOutcome := fun _ => LookupOutcome.notFound

/-- A one-record input, for the C8 witness. -/
def dfHki : List BirthRecord := [⟨"Matti", "3 JAN 1850", 1850, "Helsinki"⟩]

/-- Witness for C8: when every lookup misses, the place is recorded with
absent coordinates and the output is empty. -/
theorem C8_resolver_errors_witness :
    (place_coords_of lookupMiss dfHki).lookup "Helsinki" = some none
    ∧ geocode_dataframe lookupMiss dfHki = [] := by
  have h := C8_resolver_errors lookupMiss dfHki
  constructor
  · exact h.2.2 ⟨"Matti", "3 JAN 1850", 1850, "Helsinki"⟩ (by decide) (by decide)
  · rw [h.1]; decide

/-! ## Cumulative Aggregator: `create_cumulative_data` (src/geo.py lines 125-153)

    min_year = int(df['Vuosi'].min())
    max_year = int(df['Vuosi'].max())
    years = range(min_year, max_year + step, step)
    cumulative_list = []
    for year in years:
        mask = df['Vuosi'] <= year
        step_data = df.loc[mask, [...]].copy()
        if not step_data.empty:
            step_data['Animaatiovuosi'] = year
            cumulative_list.append(step_data)
    if not cumulative_list:
        return df
    return pd.concat(cumulative_list, ignore_index=True)
-/

/-- A row of the animation dataframe: a GeoRecord tagged with the frame
year column Animaatiovuosi. -/
structure FrameRow where
  geo : GeoRecord
  animaatiovuosi : Nat
deriving DecidableEq

/-- The possible results of `create_cumulative_data`: the concatenated
frame rows, the input passed through unchanged (the
`if not cumulative_list: return df` fallback), or a raised exception. -/
inductive CumulResult where
  | frames (rows : List FrameRow)
  | passthrough (df : List GeoRecord)
  | pyerror (msg : String)
deriving DecidableEq

/-- `series.min()` over a list of values (`none` on an empty series,
where pandas yields NaN). -/
def listMin : List Nat → Option Nat
  | [] => none
  | x :: xs => some (match listMin xs with
      | none => x
      | some m => Nat.min x m)

/-- `series.max()` over a list of values. -/
def listMax : List Nat → Option Nat
  | [] => none
  | x :: xs => some (match listMax xs with
      | none => x
      | some m => Nat.max x m)

/-- Python `range(a, b, s)` with positive step, as the loop `while a < b:
emit a; a += s`.  The fuel argument `b - a` is enough for any positive
step, since each iteration moves `a` up by at least one. -/
def rangeFuel (s : Nat) : Nat → Nat → Nat → List Nat
  | 0, _, _ => []
  | fuel + 1, a, b => if a < b then a :: rangeFuel s fuel (a + s) b else []

/-- `range(a, b, s)` for a positive step `s`. -/
def rangeStep (a b s : Nat) : List Nat := rangeFuel s (b - a) a b

/-- One iteration of the aggregation loop body: the rows with
`Vuosi <= year` tagged with the frame year, or nothing when the mask
selects no rows (`if not step_data.empty`). -/
def maskFrame (df : List GeoRecord) (year : Nat) : Option (List FrameRow) :=
  if df.filter (fun r => r.vuosi ≤ year) = [] then none
  else some ((df.filter (fun r => r.vuosi ≤ year)).map (fun r => FrameRow.mk r year))

/-- The loop over the frame years followed by the final concatenation
(`cumulative_list` / `pd.concat`), including the
`if not cumulative_list: return df` fallback. -/
def cumulFrames (df : List GeoRecord) (years : List Nat) : CumulResult :=
  if years.filterMap (maskFrame df) = [] then CumulResult.passthrough df
  else CumulResult.frames (years.filterMap (maskFrame df)).flatten

/-- Embedding of `create_cumulative_data` (src/geo.py lines 125-153).  On
an empty dataframe, `df['Vuosi'].min()` has no values (NaN), and
`int(NaN)` raises ValueError before anything else runs; modelled as
`.pyerror`.  Otherwise: walk the frame years
`range(min_year, max_year + step, step)`; for each frame year keep the
rows with Vuosi ≤ year, tagged with the frame year; skip empty frames;
concatenate.  The `if not cumulative_list` fallback returns the input
unchanged.  (For step = 0 Python `range` itself would raise; no claim
exercises that case and the model returns the empty range there.) -/
def create_cumulative_data (df : List GeoRecord) (step : Nat) : CumulResult :=
  match listMin (df.map (·.vuosi)), listMax (df.map (·.vuosi)) with
  | some min_year, some max_year =>
      cumulFrames df (rangeStep min_year (max_year + step) step)
  | _, _ => CumulResult.pyerror "cannot convert float NaN to integer"

/-- The frame-year sequence of the produced animation data: the distinct
values of the Animaatiovuosi column, in order of first appearance. -/
def frameYearsOf : CumulResult → List Nat
  | CumulResult.frames rows => pdUnique (rows.map (·.animaatiovuosi))
  | _ => []

/-- The member set of the frame with frame year `y`: the records of the
rows tagged `y`. -/
def frameMembers (res : CumulResult) (y : Nat) : List GeoRecord :=
  match res with
  | CumulResult.frames rows =>
      (rows.filter (fun fr => fr.animaatiovuosi == y)).map (·.geo)
  | _ => []

/-- The frame-year sequence exactly as claim C1 words it: the arithmetic
sequence starting at minY, incrementing by s, continuing while the term
is ≤ maxY + s (so the term maxY + s itself is kept when it is hit
exactly).  Stated for comparison with the sequence the code builds. -/
def specFrameYearsLe (minY maxY s : Nat) : List Nat :=
  rangeFuel s (maxY + s + 1 - minY) minY (maxY + s + 1)

lemma listMin_eq_none (l : List Nat) : listMin l = none ↔ l = [] := by
  cases l <;> simp [listMin]

lemma listMin_mem : ∀ (l : List Nat) (m : Nat), listMin l = some m → m ∈ l := by
  intro l
  induction l with
  | nil => intro m h; cases h
  | cons x xs ih =>
      intro m h
      rw [listMin] at h
      cases hxs : listMin xs with
      | none =>
          rw [hxs] at h
          have hm : x = m := Option.some_inj.mp h
          rw [← hm]
          exact List.mem_cons_self x xs
      | some m' =>
          rw [hxs] at h
          have hm : min x m' = m := Option.some_inj.mp h
          rcases min_choice x m' with hc | hc
          · rw [← hm, hc]; exact List.mem_cons_self x xs
          · rw [← hm, hc]; exact List.mem_cons_of_mem x (ih m' hxs)

lemma listMin_le : ∀ (l : List Nat) (m : Nat), listMin l = some m → ∀ x ∈ l, m ≤ x := by
  intro l
  induction l with
  | nil => intro m h; cases h
  | cons x xs ih =>
      intro m h y hy
      rw [listMin] at h
      cases hxs : listMin xs with
      | none =>
          rw [hxs] at h
          have hm : x = m := Option.some_inj.mp h
          rcases List.mem_cons.mp hy with rfl | hy'
          · omega
          · exact absurd hy' (by simp [(listMin_eq_none xs).mp hxs])
      | some m' =>
          rw [hxs] at h
          have hm : min x m' = m := Option.some_inj.mp h
          rcases List.mem_cons.mp hy with rfl | hy'
          · rw [← hm]; exact Nat.min_le_left _ _
          · rw [← hm]; exact le_trans (Nat.min_le_right x m') (ih m' hxs y hy')

lemma listMax_eq_none (l : List Nat) : listMax l = none ↔ l = [] := by
  cases l <;> simp [listMax]

lemma listMax_ge : ∀ (l : List Nat) (m : Nat), listMax l = some m → ∀ x ∈ l, x ≤ m := by
  intro l
  induction l with
  | nil => intro m h; cases h
  | cons x xs ih =>
      intro m h y hy
      rw [listMax] at h
      cases hxs : listMax xs with
      | none =>
          rw [hxs] at h
          have hm : x = m := Option.some_inj.mp h
          rcases List.mem_cons.mp hy with rfl | hy'
          · omega
          · exact absurd hy' (by simp [(listMax_eq_none xs).mp hxs])
      | some m' =>
          rw [hxs] at h
          have hm : max x m' = m := Option.some_inj.mp h
          rcases List.mem_cons.mp hy with rfl | hy'
          · rw [← hm]; exact Nat.le_max_left _ _
          · rw [← hm]; exact le_trans (ih m' hxs y hy') (Nat.le_max_right x m')

lemma exists_listMin (l : List Nat) (h : l ≠ []) : ∃ m, listMin l = some m := by
  cases l with
  | nil => exact absurd rfl h
  | cons x xs => exact ⟨_, rfl⟩

lemma exists_listMax (l : List Nat) (h : l ≠ []) : ∃ m, listMax l = some m := by
  cases l with
  | nil => exact absurd rfl h
  | cons x xs => exact ⟨_, rfl⟩

lemma rangeFuel_mem_imp (s : Nat) :
    ∀ (fuel a b y : Nat), y ∈ rangeFuel s fuel a b → ∃ k, y = a + k * s ∧ y < b := by
  intro fuel
  induction fuel with
  | zero => intro a b y h; simp [rangeFuel] at h
  | succ fuel ih =>
      intro a b y h
      rw [rangeFuel] at h
      by_cases hab : a < b
      · rw [if_pos hab] at h
        rcases List.mem_cons.mp h with rfl | h'
        · exact ⟨0, by simp, hab⟩
        · obtain ⟨k, hk, hlt⟩ := ih (a + s) b y h'
          exact ⟨k + 1, by rw [hk]; ring, hlt⟩
      · rw [if_neg hab] at h; cases h

lemma rangeFuel_mem_rev (s : Nat) (hs : 0 < s) :
    ∀ (fuel a b : Nat), b - a ≤ fuel →
      ∀ k, a + k * s < b → a + k * s ∈ rangeFuel s fuel a b := by
  intro fuel
  induction fuel with
  | zero =>
      intro a b hba k hk
      have h1 : a ≤ a + k * s := Nat.le_add_right _ _
      omega
  | succ fuel ih =>
      intro a b hba k hk
      have h1 : a ≤ a + k * s := Nat.le_add_right _ _
      have hab : a < b := by omega
      rw [rangeFuel, if_pos hab]
      match k with
      | 0 =>
          have h0 : a + 0 * s = a := by simp
          rw [h0]
          exact List.mem_cons_self _ _
      | k + 1 =>
          have hsplit : a + (k + 1) * s = (a + s) + k * s := by ring
          rw [hsplit] at hk ⊢
          exact List.mem_cons_of_mem _ (ih (a + s) b (by omega) k hk)

lemma rangeStep_mem (a b s : Nat) (hs : 0 < s) (y : Nat) :
    y ∈ rangeStep a b s ↔ ∃ k, y = a + k * s ∧ y < b := by
  constructor
  · exact rangeFuel_mem_imp s (b - a) a b y
  · rintro ⟨k, rfl, hlt⟩
    exact rangeFuel_mem_rev s hs (b - a) a b le_rfl k hlt

lemma rangeFuel_ge (s : Nat) (fuel a b y : Nat) (h : y ∈ rangeFuel s fuel a b) : a ≤ y := by
  obtain ⟨k, rfl, -⟩ := rangeFuel_mem_imp s fuel a b y h
  exact Nat.le_add_right _ _

lemma rangeFuel_nodup (s : Nat) (hs : 0 < s) :
    ∀ (fuel a b : Nat), (rangeFuel s fuel a b).Nodup := by
  intro fuel
  induction fuel with
  | zero => intro a b; simp [rangeFuel]
  | succ fuel ih =>
      intro a b
      rw [rangeFuel]
      by_cases hab : a < b
      · rw [if_pos hab]
        refine List.nodup_cons.mpr ⟨?_, ih (a + s) b⟩
        intro hmem
        have := rangeFuel_ge s fuel (a + s) b a hmem
        omega
      · rw [if_neg hab]; exact List.nodup_nil

lemma rangeFuel_empty_of_ge (s : Nat) (fuel a b : Nat) (h : ¬ a < b) :
    rangeFuel s fuel a b = [] := by
  cases fuel with
  | zero => rfl
  | succ fuel => rw [rangeFuel, if_neg h]

lemma rangeFuel_getLast (s : Nat) (hs : 0 < s) :
    ∀ (fuel a b : Nat), b - a ≤ fuel → a < b →
      ∃ y, (rangeFuel s fuel a b).getLast? = some y ∧ b ≤ y + s ∧ y < b := by
  intro fuel
  induction fuel with
  | zero => intro a b hba hab; omega
  | succ fuel ih =>
      intro a b hba hab
      rw [rangeFuel, if_pos hab]
      by_cases hab2 : a + s < b
      · obtain ⟨y, hy, h1, h2⟩ := ih (a + s) b (by omega) hab2
        refine ⟨y, ?_, h1, h2⟩
        cases hrest : rangeFuel s fuel (a + s) b with
        | nil => rw [hrest] at hy; simp at hy
        | cons c t => rw [hrest] at hy; rw [List.getLast?_cons_cons]; exact hy
      · rw [rangeFuel_empty_of_ge s fuel (a + s) b hab2]
        exact ⟨a, rfl, by omega, hab⟩

lemma filterMap_eq_map_of_some {α β : Type} (f : α → Option β) (g : α → β) :
    ∀ l : List α, (∀ a ∈ l, f a = some (g a)) → l.filterMap f = l.map g := by
  intro l
  induction l with
  | nil => intro _; rfl
  | cons x xs ih =>
      intro h
      rw [List.filterMap_cons, h x (List.mem_cons_self _ _), List.map_cons]
      exact congrArg (g x :: ·) (ih fun a ha => h a (List.mem_cons_of_mem _ ha))

lemma pdUniqueAux_append_seen {α : Type} [DecidableEq α] :
    ∀ (l rest seen : List α), (∀ t ∈ l, t ∈ seen) →
      pdUniqueAux seen (l ++ rest) = pdUniqueAux seen rest := by
  intro l
  induction l with
  | nil => intro rest seen _; rfl
  | cons t l ih =>
      intro rest seen h
      rw [List.cons_append, pdUniqueAux, if_pos (h t (List.mem_cons_self _ _))]
      exact ih rest seen fun u hu => h u (List.mem_cons_of_mem _ hu)

lemma pdUniqueAux_fresh_block {α : Type} [DecidableEq α] (seen : List α) (y : α)
    (l rest : List α) (hy : y ∉ seen) (hl : ∀ t ∈ l, t = y) (hne : l ≠ []) :
    pdUniqueAux seen (l ++ rest) = y :: pdUniqueAux (y :: seen) rest := by
  cases l with
  | nil => exact absurd rfl hne
  | cons t l' =>
      have ht : t = y := hl t (List.mem_cons_self _ _)
      subst ht
      rw [List.cons_append, pdUniqueAux, if_neg hy]
      refine congrArg (t :: ·) ?_
      exact pdUniqueAux_append_seen l' rest (t :: seen) fun u hu => by
        rw [hl u (List.mem_cons_of_mem _ hu)]
        exact List.mem_cons_self _ _

lemma pdUniqueAux_flatten_blocks {α : Type} [DecidableEq α] :
    ∀ (ys : List α) (f : α → List α) (seen : List α),
      ys.Nodup → (∀ y ∈ ys, y ∉ seen) →
      (∀ y ∈ ys, f y ≠ [] ∧ ∀ t ∈ f y, t = y) →
      pdUniqueAux seen ((ys.map f).flatten) = ys := by
  intro ys
  induction ys with
  | nil => intro f seen _ _ _; rfl
  | cons y ys ih =>
      intro f seen hnd hfresh hblocks
      have hnd' := List.nodup_cons.mp hnd
      rw [List.map_cons, List.flatten_cons]
      rw [pdUniqueAux_fresh_block seen y (f y) _ (hfresh y (List.mem_cons_self _ _))
        (hblocks y (List.mem_cons_self _ _)).2 (hblocks y (List.mem_cons_self _ _)).1]
      refine congrArg (y :: ·) ?_
      refine ih f (y :: seen) hnd'.2 ?_ ?_
      · intro y' hy'
        intro hmem
        rcases List.mem_cons.mp hmem with rfl | hmem'
        · exact hnd'.1 hy'
        · exact hfresh y' (List.mem_cons_of_mem _ hy') hmem'
      · intro y' hy'
        exact hblocks y' (List.mem_cons_of_mem _ hy')

lemma filter_block_ne_nil (df : List GeoRecord) (minY : Nat)
    (hmin : listMin (df.map (·.vuosi)) = some minY) (y : Nat) (hy : minY ≤ y) :
    df.filter (fun r => r.vuosi ≤ y) ≠ [] := by
  have hmem : minY ∈ df.map (·.vuosi) := listMin_mem _ _ hmin
  obtain ⟨r0, hr0, hr0v⟩ := List.mem_map.mp hmem
  intro hnil
  rw [List.filter_eq_nil] at hnil
  exact hnil r0 hr0 (by simp only [decide_eq_true_eq]; omega)

/-- Structure of the aggregator on a non-empty input: the result is the
concatenation, over the frame years `range(minY, maxY + s, s)`, of the
rows with Vuosi ≤ frame year tagged with the frame year (no frame is
empty, because the record attaining the minimum year belongs to all of
them). -/
lemma create_cumulative_spec (df : List GeoRecord) (s : Nat) (hs : 0 < s)
    (minY maxY : Nat) (hmin : listMin (df.map (·.vuosi)) = some minY)
    (hmax : listMax (df.map (·.vuosi)) = some maxY) :
    create_cumulative_data df s =
      CumulResult.frames
        (((rangeStep minY (maxY + s) s).map
          (fun y => (df.filter (fun r => r.vuosi ≤ y)).map
            (fun r => FrameRow.mk r y))).flatten) := by
  have hminmax : minY ≤ maxY := listMax_ge _ _ hmax minY (listMin_mem _ _ hmin)
  have hblock : ∀ y ∈ rangeStep minY (maxY + s) s,
      df.filter (fun r => r.vuosi ≤ y) ≠ [] := by
    intro y hy
    obtain ⟨k, rfl, -⟩ := (rangeStep_mem _ _ _ hs y).mp hy
    exact filter_block_ne_nil df minY hmin _ (Nat.le_add_right _ _)
  have hfm : (rangeStep minY (maxY + s) s).filterMap (maskFrame df) =
      (rangeStep minY (maxY + s) s).map
        (fun y => (df.filter (fun r => r.vuosi ≤ y)).map (fun r => FrameRow.mk r y)) := by
    apply filterMap_eq_map_of_some
    intro y hy
    rw [maskFrame, if_neg (hblock y hy)]
  have hne2 : (rangeStep minY (maxY + s) s).map
      (fun y => (df.filter (fun r => r.vuosi ≤ y)).map (fun r => FrameRow.mk r y)) ≠ [] := by
    have hmem0 : minY ∈ rangeStep minY (maxY + s) s :=
      (rangeStep_mem _ _ _ hs minY).mpr ⟨0, by simp, by omega⟩
    intro hnil
    rw [List.map_eq_nil] at hnil
    rw [hnil] at hmem0
    cases hmem0
  unfold create_cumulative_data
  rw [hmin, hmax]
  show cumulFrames df (rangeStep minY (maxY + s) s) = _
  rw [cumulFrames, hfm, if_neg hne2]

lemma frameYearsOf_create (df : List GeoRecord) (s : Nat) (hs : 0 < s)
    (minY maxY : Nat) (hmin : listMin (df.map (·.vuosi)) = some minY)
    (hmax : listMax (df.map (·.vuosi)) = some maxY) :
    frameYearsOf (create_cumulative_data df s) = rangeStep minY (maxY + s) s := by
  rw [create_cumulative_spec df s hs minY maxY hmin hmax, frameYearsOf]
  rw [List.map_flatten, List.map_map, pdUnique]
  apply pdUniqueAux_flatten_blocks
  · exact rangeFuel_nodup s hs _ _ _
  · intro y _ hmem
    cases hmem
  · intro y hy
    constructor
    · intro hnil
      simp only [Function.comp_apply, List.map_eq_nil] at hnil
      obtain ⟨k, rfl, -⟩ := (rangeStep_mem _ _ _ hs y).mp hy
      exact filter_block_ne_nil df minY hmin _ (Nat.le_add_right _ _) hnil
    · intro t ht
      simp only [Function.comp_apply, List.mem_map] at ht
      obtain ⟨fr, ⟨r, hr, rfl⟩, rfl⟩ := ht
      rfl

lemma map_mk_geo (y : Nat) :
    ∀ l : List GeoRecord, (l.map (fun r => FrameRow.mk r y)).map (·.geo) = l := by
  intro l
  induction l with
  | nil => rfl
  | cons r l ih => simp only [List.map_cons, ih]

lemma filter_flatten_block (ys : List Nat) (f : Nat → List FrameRow) (y : Nat)
    (hnd : ys.Nodup) (hy : y ∈ ys)
    (htags : ∀ y' ∈ ys, ∀ fr ∈ f y', fr.animaatiovuosi = y') :
    ((ys.map f).flatten).filter (fun fr => fr.animaatiovuosi == y) = f y := by
  induction ys with
  | nil => cases hy
  | cons y' ys ih =>
      have hnd' := List.nodup_cons.mp hnd
      rw [List.map_cons, List.flatten_cons, List.filter_append]
      rcases List.mem_cons.mp hy with rfl | hy2
      · have h1 : (f y).filter (fun fr => fr.animaatiovuosi == y) = f y := by
          rw [List.filter_eq_self]
          intro fr hfr
          rw [htags y (List.mem_cons_self _ _) fr hfr]
          exact beq_self_eq_true y
        have h2 : ((ys.map f).flatten).filter (fun fr => fr.animaatiovuosi == y) = [] := by
          rw [List.filter_eq_nil]
          intro fr hfr
          obtain ⟨l, hl, hfrl⟩ := List.mem_flatten.mp hfr
          obtain ⟨y'', hy'', rfl⟩ := List.mem_map.mp hl
          rw [htags y'' (List.mem_cons_of_mem _ hy'') fr hfrl]
          simp only [beq_iff_eq]
          exact fun heq => hnd'.1 (heq ▸ hy'')
        rw [h1, h2, List.append_nil]
      · have hne : y' ≠ y := fun heq => hnd'.1 (heq ▸ hy2)
        have h1 : (f y').filter (fun fr => fr.animaatiovuosi == y) = [] := by
          rw [List.filter_eq_nil]
          intro fr hfr
          rw [htags y' (List.mem_cons_self _ _) fr hfr]
          simp only [beq_iff_eq]
          exact hne
        rw [h1, List.nil_append]
        exact ih hnd'.2 hy2 fun u hu => htags u (List.mem_cons_of_mem _ hu)

lemma frameMembers_create (df : List GeoRecord) (s : Nat) (hs : 0 < s)
    (minY maxY : Nat) (hmin : listMin (df.map (·.vuosi)) = some minY)
    (hmax : listMax (df.map (·.vuosi)) = some maxY) (y : Nat)
    (hy : y ∈ rangeStep minY (maxY + s) s) :
    frameMembers (create_cumulative_data df s) y = df.filter (fun r => r.vuosi ≤ y) := by
  rw [create_cumulative_spec df s hs minY maxY hmin hmax, frameMembers]
  have htags : ∀ y' ∈ rangeStep minY (maxY + s) s,
      ∀ fr ∈ (df.filter (fun r => r.vuosi ≤ y')).map (fun r => FrameRow.mk r y'),
        fr.animaatiovuosi = y' := by
    intro y' _ fr hfr
    obtain ⟨r, hr, rfl⟩ := List.mem_map.mp hfr
    rfl
  have hnd : (rangeStep minY (maxY + s) s).Nodup := by
    rw [rangeStep]
    exact rangeFuel_nodup s hs _ _ _
  rw [filter_flatten_block _ _ y hnd hy htags]
  exact map_mk_geo y _

/-- Example records spanning the boundary scenario of C1 (minYear 1872,
maxYear 1881). -/
def geoA : GeoRecord := ⟨"A", "1872", 1872, "X", 60, 24⟩

def geoB : GeoRecord := ⟨"B", "1881", 1881, "Y", 61, 25⟩

/-- A single record with year 1870, exhibiting the boundary divergence of
claim C1. -/
def geoC : GeoRecord := ⟨"C", "1870", 1870, "Z", 62, 26⟩

/-- Counterexample to claim C1 as stated: with one record born 1870 and
step 5, the sequence the claim words demand (terms of the arithmetic
sequence from minY while ≤ maxY + s, here ≤ 1875) is 1870, 1875, but the
code builds `range(1870, 1875, 5)` with the bound exclusive, producing
only the frame year 1870. -/
theorem C1_counterexample :
    frameYearsOf (create_cumulative_data [geoC] 5) = [1870]
    ∧ specFrameYearsLe 1870 1870 5 = [1870, 1875]
    ∧ frameYearsOf (create_cumulative_data [geoC] 5) ≠ specFrameYearsLe 1870 1870 5 := by
  decide

/-- Claim C1 (amended): the frame years are the arithmetic sequence
starting at minY, incrementing by s, continuing while strictly below
maxY + s; the final frame year is ≥ maxY (and < maxY + s); with step 5,
minYear 1872 and maxYear 1881 the sequence is 1872, 1877, 1882. -/
theorem C1_frame_years :
    (∀ (df : List GeoRecord) (s minY maxY : Nat), 0 < s →
        listMin (df.map (·.vuosi)) = some minY →
        listMax (df.map (·.vuosi)) = some maxY →
        frameYearsOf (create_cumulative_data df s) = rangeStep minY (maxY + s) s
        ∧ (∀ y, y ∈ frameYearsOf (create_cumulative_data df s) ↔
              ∃ k, y = minY + k * s ∧ y < maxY + s)
        ∧ (∃ yl, (frameYearsOf (create_cumulative_data df s)).getLast? = some yl ∧
              maxY ≤ yl ∧ yl < maxY + s))
    ∧ frameYearsOf (create_cumulative_data [geoA, geoB] 5) = [1872, 1877, 1882] := by
  constructor
  · intro df s minY maxY hs hmin hmax
    have hminmax : minY ≤ maxY := listMax_ge _ _ hmax minY (listMin_mem _ _ hmin)
    have hfy := frameYearsOf_create df s hs minY maxY hmin hmax
    refine ⟨hfy, ?_, ?_⟩
    · intro y
      rw [hfy]
      exact rangeStep_mem minY (maxY + s) s hs y
    · rw [hfy, rangeStep]
      obtain ⟨yl, h1, h2, h3⟩ :=
        rangeFuel_getLast s hs (maxY + s - minY) minY (maxY + s) le_rfl (by omega)
      exact ⟨yl, h1, by omega, h3⟩
  · decide

/-- Witness for C1 (amended) at the boundary scenario. -/
theorem C1_frame_years_witness :
    frameYearsOf (create_cumulative_data [geoA, geoB] 5) = rangeStep 1872 (1881 + 5) 5 :=
  (C1_frame_years.1 [geoA, geoB] 5 1872 1881 (by decide) (by decide) (by decide)).1

/-- Claim C2: the member set of the frame with year y is exactly the
input records with birth year ≤ y, and for frame years y1 < y2 in the
output the members of y1 form a subset of the members of y2. -/
theorem C2_cumulative_superset (df : List GeoRecord) (s : Nat) (hs : 0 < s) :
    (∀ y ∈ frameYearsOf (create_cumulative_data df s),
        frameMembers (create_cumulative_data df s) y =
          df.filter (fun r => r.vuosi ≤ y))
    ∧ (∀ y1 y2, y1 ∈ frameYearsOf (create_cumulative_data df s) →
          y2 ∈ frameYearsOf (create_cumulative_data df s) → y1 < y2 →
          ∀ g ∈ frameMembers (create_cumulative_data df s) y1,
            g ∈ frameMembers (create_cumulative_data df s) y2) := by
  by_cases hne : df = []
  · subst hne
    have h0 : frameYearsOf (create_cumulative_data [] s) = [] := rfl
    constructor
    · intro y hy
      rw [h0] at hy
      cases hy
    · intro y1 y2 hy1 hy2 _ g hg
      rw [h0] at hy1
      cases hy1
  · have hmapne : df.map (·.vuosi) ≠ [] := fun hh => hne (List.map_eq_nil.mp hh)
    obtain ⟨minY, hmin⟩ := exists_listMin _ hmapne
    obtain ⟨maxY, hmax⟩ := exists_listMax _ hmapne
    have hfy := frameYearsOf_create df s hs minY maxY hmin hmax
    constructor
    · intro y hy
      rw [hfy] at hy
      exact frameMembers_create df s hs minY maxY hmin hmax y hy
    · intro y1 y2 hy1 hy2 hlt g hg
      rw [hfy] at hy1 hy2
      rw [frameMembers_create df s hs minY maxY hmin hmax y1 hy1] at hg
      rw [frameMembers_create df s hs minY maxY hmin hmax y2 hy2]
      obtain ⟨hgdf, hgle⟩ := List.mem_filter.mp hg
      refine List.mem_filter.mpr ⟨hgdf, ?_⟩
      simp only [decide_eq_true_eq] at hgle ⊢
      omega

/-- Witness for C2: with the boundary example, the record born 1872 is a
member of the later frame 1877 as well. -/
theorem C2_cumulative_superset_witness :
    geoA ∈ frameMembers (create_cumulative_data [geoA, geoB] 5) 1877 :=
  (C2_cumulative_superset [geoA, geoB] 5 (by decide)).2 1872 1877
    (by decide) (by decide) (by decide) geoA (by decide)

/-- Claim C6 names the intended behaviour (empty input returned
unchanged); the code instead evaluates `int(df['Vuosi'].min())` first,
which raises on an empty dataframe — the `if not cumulative_list:
return df` fallback is unreachable for the empty input it was meant to
serve.  The embedding records the raise. -/
theorem C6_empty_input (s : Nat) :
    create_cumulative_data [] s =
      CumulResult.pyerror "cannot convert float NaN to integer" := rfl

/-! ## Genealogy Record Extractor: `parse_gedcom` (src/geo.py lines 26-84)

The code decodes the bytes, writes them to a temporary file, runs the
python-gedcom `Parser` over it, and walks the root child elements,
processing each `IndividualElement` inside a per-individual try/except
that skips the individual on any error.  The temporary-file round trip
(UTF-8 re-encode, write, read back) is the identity on the decoded text
and is not modelled.  The python-gedcom library itself (the structural
parser and the `IndividualElement` accessors) is an external dependency
whose source is not in the repository; those parts are modelled from the
specification below and are marked as such. -/

/-- A parsed GEDCOM element: a tag, a value and the child elements. -/
inductive GElem where
  | node (tag : String) (value : String) (children : List GElem)

def GElem.tag : GElem → String
  | .node t _ _ => t

def GElem.value : GElem → String
  | .node _ v _ => v

def GElem.children : GElem → List GElem
  | .node _ _ c => c

/-- Split a character list at every occurrence of `sep` (used for the
line split and for the surname slashes of a NAME value). -/
def splitOnChar (sep : Char) : List Char → List (List Char)
  | [] => [[]]
  | c :: rest =>
      match splitOnChar sep rest with
      | l :: ls => if c = sep then [] :: l :: ls else (c :: l) :: ls
      | [] => [[c]]

/-- Drop one leading space (the separator after the level, the pointer
or the tag of a GEDCOM line). -/
def dropOneSpace : List Char → List Char
  | ' ' :: rest => rest
  | cs => cs

/-- Strip leading and trailing spaces (Python `str.strip()`; the data
here only ever carries plain spaces). -/
def trimChars (cs : List Char) : List Char :=
  ((cs.dropWhile (fun c => c == ' ')).reverse.dropWhile (fun c => c == ' ')).reverse

def strTrim (s : String) : String := ⟨trimChars s.data⟩

/-- Modelled from the spec: one line of the record-based genealogy
exchange format, as read by the python-gedcom Parser (not under src/).
The spec: "each line is a nesting-level integer, a tag, and a value",
parsed leniently.  A line may carry an optional @-delimited
cross-reference pointer between the level and the tag (the glossary
individuals look like `0 @I1@ INDI`); the pointer is not used by the
extractor and is dropped.  A line that does not fit the shape yields
`none` and is skipped (lenient, non-strict mode). -/
def parseLine (line : List Char) : Option (Nat × String × String) :=
  let cs := line.filter (fun c => c != '\r')
  let t1 := cs.takeWhile (fun c => c != ' ')
  let r1 := cs.dropWhile (fun c => c != ' ')
  if t1 ≠ [] ∧ t1.all Char.isDigit then
    let r1' := dropOneSpace r1
    let t2 := r1'.takeWhile (fun c => c != ' ')
    let r2 := r1'.dropWhile (fun c => c != ' ')
    match t2 with
    | [] => none
    | c :: _ =>
        if c = '@' then
          let r2' := dropOneSpace r2
          let t3 := r2'.takeWhile (fun c => c != ' ')
          let r3 := r2'.dropWhile (fun c => c != ' ')
          match t3 with
          | [] => none
          | _ => some (digitsToNat t1, ⟨t3⟩, ⟨dropOneSpace r3⟩)
        else
          some (digitsToNat t1, ⟨t2⟩, ⟨dropOneSpace r2⟩)
  else none

/-- Modelled from the spec: assemble the level-numbered lines into the
element forest, leniently.  A line at the expected level opens an
element whose children are the following deeper lines; a shallower line
closes the current element; a line deeper than expected (malformed
nesting) is skipped.  The fuel argument (`lines.length + 1` at the top
call) makes the recursion structural; it cannot run out. -/
def buildForest : Nat → Nat → List (Nat × String × String) →
    List GElem × List (Nat × String × String)
  | 0, _, lines => ([], lines)
  | _ + 1, _, [] => ([], [])
  | fuel + 1, lvl, (l, t, v) :: rest =>
      if l < lvl then ([], (l, t, v) :: rest)
      else if l = lvl then
        let child := buildForest fuel (lvl + 1) rest
        let sibling := buildForest fuel lvl child.2
        (GElem.node t v child.1 :: sibling.1, sibling.2)
      else
        buildForest fuel lvl rest

/-- Modelled from the spec: `Parser.parse_file` followed by
`get_root_child_elements` of python-gedcom (not under src/), in the
lenient mode the spec describes: unparsable lines are dropped, and input
with no recognizable top-level structure simply yields no elements. -/
def parseGedcomTree (cs : List Char) : List GElem :=
  let lines := (splitOnChar '\n' cs).filterMap parseLine
  (buildForest (lines.length + 1) 0 lines).1

/-- Modelled from the spec: `IndividualElement.get_name` of python-gedcom
(not under src/).  The spec: "extract a display name (first + last,
trimmed, space-joined, empty parts omitted)"; in the exchange format the
NAME value carries the surname between slashes.  Missing parts are empty
strings. -/
def get_name (e : GElem) : String × String :=
  match e.children.find? (fun c => c.tag == "NAME") with
  | none => ("", "")
  | some c =>
      match splitOnChar '/' c.value.data with
      | [] => ("", "")
      | [g] => (⟨trimChars g⟩, "")
      | g :: sn :: _ => (⟨trimChars g⟩, ⟨sn⟩)

/-- Modelled from the spec: `IndividualElement.get_birth_data` of
python-gedcom (not under src/).  The spec: "Scan the individual's direct
child tags for a birth event (tag BIRT) or, if absent, a christening
event (tag CHR); take the first such event found.  Within that event's
child tags, find the first DATE value and the first PLAC value."
Missing parts are empty strings. -/
def get_birth_data (e : GElem) : String × String :=
  match (match e.children.find? (fun c => c.tag == "BIRT") with
         | some b => some b
         | none => e.children.find? (fun c => c.tag == "CHR")) with
  | none => ("", "")
  | some b =>
      ((match b.children.find? (fun c => c.tag == "DATE") with
        | some dc => dc.value
        | none => ""),
       (match b.children.find? (fun c => c.tag == "PLAC") with
        | some pc => pc.value
        | none => ""))

/-- `f"{first} {last}".strip()` (src/geo.py lines 56-58). -/
def full_name_of (e : GElem) : String :=
  strTrim ((get_name e).1 ++ " " ++ (get_name e).2)

/-- The body of the per-individual try block (src/geo.py lines 54-73):
emit a row only when the place (`birth_data[1]`) is non-empty and the
test `if birth_year and birth_place` passes — Python truthiness, so an
extracted year equal to 0 fails it just like an absent year. -/
def processIndividual (e : GElem) : Except String (Option BirthRecord) :=
  if (get_birth_data e).2 ≠ "" then
    match get_year_from_date (get_birth_data e).1 with
    | some birth_year =>
        if birth_year ≠ 0 ∧ (get_birth_data e).2 ≠ "" then
          Except.ok (some ⟨full_name_of e, (get_birth_data e).1, birth_year,
            (get_birth_data e).2⟩)
        else Except.ok none
    | none => Except.ok none
  else Except.ok none

/-- The extraction loop (src/geo.py lines 52-75): walk the root child
elements, process only the individuals, and catch any error raised while
processing one individual, skipping just that individual (`except
Exception: continue`). -/
def extractRecords (proc : GElem → Except String (Option BirthRecord))
    (roots : List GElem) : List BirthRecord :=
  roots.filterMap fun e =>
    if e.tag == "INDI" then
      match proc e with
      | Except.ok r => r
      | Except.error _ => none
    else none

/-- Embedding of `parse_gedcom` (src/geo.py lines 26-84): decode the
bytes through the fallback chain, parse the text into the element
forest, and extract one row per suitable individual.  An uncaught
exception anywhere would surface as `.error`. -/
def parse_gedcom (bs : List Nat) : Except String (List BirthRecord) :=
  match decode_file_content bs with
  | Except.error e => Except.error e
  | Except.ok cs => Except.ok (extractRecords processIndividual (parseGedcomTree cs))

/-- The bytes of an ASCII string. -/
def strBytes (s : String) : List Nat := s.data.map (·.toNat)

/-- The two-individual end-to-end scenario of claim C5: one individual
with BIRT/DATE and BIRT/PLAC, one with no BIRT at all. -/
def scenarioText : String :=
  "0 @I1@ INDI\n1 NAME Matti /Testi/\n1 BIRT\n2 DATE 3 JAN 1850\n2 PLAC Helsinki\n0 @I2@ INDI\n1 NAME Toinen /Testi/\n0 TRLR\n"

/-- A scenario for claim C10: a birth event whose date carries the
four-digit run 0000 and a non-empty place. -/
def scenario0Text : String :=
  "0 @I1@ INDI\n1 NAME Nolla /Testi/\n1 BIRT\n2 DATE ABT 0000\n2 PLAC Helsinki\n0 TRLR\n"

/-- An individual element with a complete birth event, used as witness
input. -/
def indiv1 : GElem :=
  GElem.node "INDI" "" [GElem.node "NAME" "Matti /Testi/" [],
    GElem.node "BIRT" "" [GElem.node "DATE" "3 JAN 1850" [],
      GElem.node "PLAC" "Helsinki" []]]

/-- An individual element whose birth date extracts the year 0, used as
witness input. -/
def indiv0 : GElem :=
  GElem.node "INDI" "" [GElem.node "NAME" "Nolla /Testi/" [],
    GElem.node "BIRT" "" [GElem.node "DATE" "ABT 0000" [],
      GElem.node "PLAC" "Helsinki" []]]

/-- Claim C3: the extractor never raises — the decode chain is total,
a failure while processing one individual skips only that individual
(for every possible per-individual behaviour, including raising ones),
and text with no recognizable structure yields an empty result rather
than an exception. -/
theorem C3_extractor_never_raises :
    (∀ bs : List Nat, ∃ recs, parse_gedcom bs = Except.ok recs)
    ∧ (∀ (proc : GElem → Except String (Option BirthRecord)) (roots : List GElem),
        extractRecords proc roots = roots.filterMap (fun e =>
          if e.tag == "INDI" then ((proc e).toOption.bind id) else none))
    ∧ parse_gedcom (strBytes "this is not a gedcom file") = Except.ok [] := by
  refine ⟨?_, ?_, by rfl⟩
  · intro bs
    obtain ⟨cs, hcs⟩ := decode_total bs
    refine ⟨extractRecords processIndividual (parseGedcomTree cs), ?_⟩
    unfold parse_gedcom
    rw [hcs]
  · intro proc roots
    rw [extractRecords]
    refine List.filterMap_congr fun e _ => ?_
    by_cases ht : (e.tag == "INDI") = true
    · simp only [ht, if_true]
      cases proc e <;> rfl
    · rw [if_neg ht, if_neg ht]

/-- Claim C5: a record is emitted for an individual only when the birth
data of its birth (or, failing that, christening) event yields an
extractable non-zero year and a non-empty place, and the record carries
exactly those fields; on the two-individual scenario file the extractor
returns exactly one record, for the first individual. -/
theorem C5_extractor_emission :
    (∀ (e : GElem) (rec : BirthRecord), processIndividual e = Except.ok (some rec) →
        ∃ y, get_year_from_date (get_birth_data e).1 = some y ∧ y ≠ 0 ∧
          (get_birth_data e).2 ≠ "" ∧
          rec = ⟨full_name_of e, (get_birth_data e).1, y, (get_birth_data e).2⟩)
    ∧ parse_gedcom (strBytes scenarioText) =
        Except.ok [⟨"Matti Testi", "3 JAN 1850", 1850, "Helsinki"⟩] := by
  constructor
  · intro e rec h
    rw [processIndividual] at h
    split at h
    · rename_i hp
      split at h
      · rename_i y hy
        split at h
        · rename_i hz
          simp only [Except.ok.injEq, Option.some.injEq] at h
          exact ⟨y, hy, hz.1, hp, h.symm⟩
        · simp at h
      · simp at h
    · simp at h
  · rfl

/-- Witness for C5 at a concrete individual element. -/
theorem C5_extractor_emission_witness :
    ∃ y, get_year_from_date (get_birth_data indiv1).1 = some y ∧ y ≠ 0 ∧
      (get_birth_data indiv1).2 ≠ "" ∧
      (⟨"Matti Testi", "3 JAN 1850", 1850, "Helsinki"⟩ : BirthRecord) =
        ⟨full_name_of indiv1, (get_birth_data indiv1).1, y, (get_birth_data indiv1).2⟩ :=
  C5_extractor_emission.1 indiv1 ⟨"Matti Testi", "3 JAN 1850", 1850, "Helsinki"⟩ (by rfl)

/-- Claim C10: an extracted year equal to 0 (date text whose first
four-digit run is "0000") fails the Python truthiness test
`if birth_year and birth_place` exactly like an absent year, so no
record is emitted even with a non-empty place; end to end, a file whose
only individual has such a date yields no records. -/
theorem C10_year_zero :
    (∀ e : GElem, (get_birth_data e).2 ≠ "" →
        get_year_from_date (get_birth_data e).1 = some 0 →
        processIndividual e = Except.ok none)
    ∧ parse_gedcom (strBytes scenario0Text) = Except.ok [] := by
  constructor
  · intro e hp hy
    rw [processIndividual, if_pos hp, hy]
    show (if (0 : Nat) ≠ 0 ∧ (get_birth_data e).2 ≠ "" then
        Except.ok (some ⟨full_name_of e, (get_birth_data e).1, 0, (get_birth_data e).2⟩)
      else Except.ok none) = Except.ok none
    rw [if_neg (by simp)]
  · rfl

/-- Witness for C10 at a concrete individual element. -/
theorem C10_year_zero_witness :
    processIndividual indiv0 = Except.ok none :=
  C10_year_zero.1 indiv0 (by decide) (by rfl)

end Geo
